import Mathlib

/-!
Verification of the uber/h3-go wrapper (src/h3.go) against its
natural-language specification.

Conventions of the embedding:
* A Go `Cell` is `int64`; the wrapper reinterprets the C `H3Index`
  (`uint64`) output buffers as `[]Cell` byte-for-byte, so buffer entries
  are modelled as `Int` values (a value with the high bit set appears
  negative).
* Go strings are modelled as `List Char`.
* The C engine is not part of the wrapper source; wrapper functions that
  call into it take the engine as an explicit function argument producing
  the contents of the output buffer together with the numeric C error
  code.  Properties proved for all engine arguments hold regardless of
  what the engine writes.
* Functions of the engine itself that the specification pins down are
  modelled separately from the specification text and marked as such.
-/

namespace H3

/-- The Go error values produced by `toErr` via `errMap` (src/h3.go):
one value per C error code 1..15, `none` for the success code 0, and
`unknown` for any other code. -/
inductive H3GoError where
  | failed
  | domain
  | latLngDomain
  | resolutionDomain
  | cellInvalid
  | directedEdgeInvalid
  | undirectedEdgeInvalid
  | vertexInvalid
  | pentagon
  | duplicateInput
  | notNeighbors
  | resolutionMismatch
  | memoryAlloc
  | memoryBounds
  | optionInvalid
  | unknown
deriving DecidableEq

/-- Embeds `toErr` (src/h3.go): translates a C error code into the wrapper's Go
error value; `none` models the `nil` error returned for code 0. -/
def toErr (code : Nat) : Option H3GoError :=
  match code with
  | 0 => none
  | 1 => some .failed
  | 2 => some .domain
  | 3 => some .latLngDomain
  | 4 => some .resolutionDomain
  | 5 => some .cellInvalid
  | 6 => some .directedEdgeInvalid
  | 7 => some .undirectedEdgeInvalid
  | 8 => some .vertexInvalid
  | 9 => some .pentagon
  | 10 => some .duplicateInput
  | 11 => some .notNeighbors
  | 12 => some .resolutionMismatch
  | 13 => some .memoryAlloc
  | 14 => some .memoryBounds
  | 15 => some .optionInvalid
  | _ => some .unknown

/-- The first loop of `cellsFromC` (src/h3.go): appends every buffer
entry to the output, skipping entries `≤ 0` when `prune` is set. -/
def pruneLoop (prune : Bool) (chs : List Int) : List Int :=
  chs.filter (fun x => !(prune && decide (x ≤ 0)))

/-- The `refit` loop of `cellsFromC` (src/h3.go): iterates the index `i`
downwards from the initial length minus one to zero, truncating the
slice to `out[:i]` whenever `out[i] == 0`.  `refitIter l i` performs the
iterations for indices `i, i-1, ..., 0`.  (The out-of-range default `1`
is never consulted: the loop starts in bounds and truncation keeps the
remaining indices in bounds.) -/
def refitIter (l : List Int) : Nat → List Int
  | 0 => if l.getD 0 1 = 0 then l.take 0 else l
  | i + 1 => refitIter (if l.getD (i + 1) 1 = 0 then l.take (i + 1) else l) i

/-- Embeds `cellsFromC` (src/h3.go): converts a raw C output buffer into the
returned `[]Cell`, optionally pruning non-positive entries and
optionally refitting the slice with the downward truncation loop. -/
def cellsFromC (chs : List Int) (prune refit : Bool) : List Int :=
  let out := pruneLoop prune chs
  if refit then
    match out.length with
    | 0 => out
    | n + 1 => refitIter out n
  else out

/-- Embeds `maxGridDiskSize` (src/h3.go): `3*k*(k+1) + 1`. -/
def maxGridDiskSize (k : Nat) : Nat := 3 * k * (k + 1) + 1

/-- Embeds `ringSize` (src/h3.go): 1 for `k = 0`, else `6*k`. -/
def ringSize (k : Nat) : Nat := if k = 0 then 1 else 6 * k

/-- An abstract grid-traversal engine call: given the origin cell and
`k`, the contents it leaves in the output buffer and the C error code
it returns. -/
abbrev GridEngine := Int → Nat → List Int × Nat

/-- Embeds `GridDisk` (src/h3.go): allocates a buffer of `maxGridDiskSize k`
entries, lets the engine fill it, and returns the pruned (not refitted)
cells together with the translated error. -/
def GridDisk (engine : GridEngine) (origin : Int) (k : Nat) :
    List Int × Option H3GoError :=
  let r := engine origin k
  (cellsFromC r.1 true false, toErr r.2)

/-- The per-origin loop of the multi-origin fast grid-disk wrapper
(src/h3.go, `GridDisks` + `Unsafe` suffix): calls the engine for each
origin in order, returning `(none, err)` at the first engine error and
otherwise the pruned per-origin cell lists with a `nil` error. -/
def GridDisksFast (engine : GridEngine) (origins : List Int) (k : Nat) :
    Option (List (List Int)) × Option H3GoError :=
  match origins with
  | [] => (some [], none)
  | o :: os =>
    let r := engine o k
    match toErr r.2 with
    | some e => (none, some e)
    | none =>
      match GridDisksFast engine os k with
      | (some rest, none) => (some (cellsFromC r.1 true false :: rest), none)
      | other => other

/-- Embeds `GridRing` (src/h3.go): returns `(nil, ErrDomain)` for `k < 0`
without calling the engine; otherwise allocates `ringSize k` entries,
lets the engine fill them, and returns the pruned cells with the
translated error.  `none` models the `nil` slice. -/
def GridRing (engine : GridEngine) (origin : Int) (k : Int) :
    Option (List Int) × Option H3GoError :=
  if k < 0 then (none, some .domain)
  else
    let r := engine origin k.toNat
    (some (cellsFromC r.1 true false), toErr r.2)

/-- The fast-path hollow-ring wrapper (src/h3.go, `GridRing` + `Unsafe`
suffix): identical wrapper logic to `GridRing`, delegating to the
engine's fast ring routine. -/
def GridRingFast (engine : GridEngine) (origin : Int) (k : Int) :
    Option (List Int) × Option H3GoError :=
  if k < 0 then (none, some .domain)
  else
    let r := engine origin k.toNat
    (some (cellsFromC r.1 true false), toErr r.2)

/-- Embeds `CompactCells` (src/h3.go): passes the input to the engine's compact
routine and returns the refitted (not pruned) output buffer together
with the translated error. -/
def CompactCells (engine : List Int → List Int × Nat) (inp : List Int) :
    List Int × Option H3GoError :=
  let r := engine inp
  (cellsFromC r.1 false true, toErr r.2)

/-- Embeds `UncompactCells` (src/h3.go): queries the engine for the output
size (first result: size, second: error code), returning `(nil, err)`
if that fails; otherwise lets the engine fill a buffer of that size and
returns the refitted (not pruned) output together with the translated
error. -/
def UncompactCells (sizeEngine : List Int → Int → Nat × Nat)
    (engine : List Int → Int → Nat → List Int × Nat)
    (inp : List Int) (resolution : Int) :
    Option (List Int) × Option H3GoError :=
  let s := sizeEngine inp resolution
  match toErr s.2 with
  | some e => (none, some e)
  | none =>
    let r := engine inp resolution s.1
    (some (cellsFromC r.1 false true), toErr r.2)

/-- Embeds `LatLng` (src/h3.go): geographic coordinates in degrees. -/
structure LatLng where
  lat : Float
  lng : Float

/-- Embeds `GeoPolygon` (src/h3.go): an outer loop and zero or more holes. -/
structure GeoPolygon where
  geoLoop : List LatLng
  holes : List (List LatLng)

/-- Embeds `PolygonToCells` (src/h3.go): returns `(nil, nil)` when the outer
loop is empty; otherwise queries the engine for the maximal output size
(first result: size, second: error code), failing early on error, then
lets the engine fill the buffer and returns the pruned cells with the
translated error. -/
def PolygonToCells (sizeEngine : GeoPolygon → Int → Nat × Nat)
    (engine : GeoPolygon → Int → Nat → List Int × Nat)
    (polygon : GeoPolygon) (resolution : Int) :
    Option (List Int) × Option H3GoError :=
  if polygon.geoLoop.length = 0 then (none, none)
  else
    let s := sizeEngine polygon resolution
    match toErr s.2 with
    | some e => (none, some e)
    | none =>
      let r := engine polygon resolution s.1
      (some (cellsFromC r.1 true false), toErr r.2)

/-- Embeds `PolygonToCellsExperimental` (src/h3.go): like `PolygonToCells`
but with a containment mode and an optional maximum-cell cap (the Go
variadic argument, modelled as a list whose head, if any, is the cap;
`2^63 - 1` models `math.MaxInt64`). -/
def PolygonToCellsExperimental
    (sizeEngine : GeoPolygon → Int → Nat → Nat × Nat)
    (engine : GeoPolygon → Int → Nat → Int → Nat → List Int × Nat)
    (polygon : GeoPolygon) (resolution : Int) (mode : Nat)
    (maxNumCellsReturn : List Int) :
    Option (List Int) × Option H3GoError :=
  let maxNumCells : Int :=
    match maxNumCellsReturn with
    | [] => 9223372036854775807
    | m :: _ => m
  if polygon.geoLoop.length = 0 then (none, none)
  else
    let s := sizeEngine polygon resolution mode
    match toErr s.2 with
    | some e => (none, some e)
    | none =>
      let r := engine polygon resolution mode maxNumCells s.1
      (some (cellsFromC r.1 true false), toErr r.2)

/-- Embeds `Cell.IsValid` (src/h3.go): `c != 0 && isValidCell(c) == 1`; the
engine's structural validity check is an explicit argument. -/
def IsValid (engineIsValid : Int → Bool) (c : Int) : Bool :=
  decide (c ≠ 0) && engineIsValid c

/-- The character-classification switch of Go's `strconv.ParseUint`:
decimal digits and letters (either case) map to their raw digit value;
any other character is a syntax error (`none`). -/
def rawDigitVal (c : Char) : Option Nat :=
  if '0' ≤ c ∧ c ≤ '9' then some (c.toNat - '0'.toNat)
  else if 'a' ≤ c ∧ c ≤ 'z' then some (c.toNat - 'a'.toNat + 10)
  else if 'A' ≤ c ∧ c ≤ 'Z' then some (c.toNat - 'A'.toNat + 10)
  else none

/-- A base-16 digit as accepted by Go's `strconv.ParseUint(s, 16, 64)`:
the classification switch followed by the uniform `d >= base` syntax
check. -/
def hexDigitVal (c : Char) : Option Nat :=
  match rawDigitVal c with
  | none => none
  | some d => if d < 16 then some d else none

/-- The accumulation loop of Go's `strconv.ParseUint(s, 16, 64)`: on an
invalid character it returns 0 (syntax error); when the accumulator
reaches the cutoff `2^60` or the next value would exceed `2^64 - 1` it
returns `2^64 - 1` (range error); otherwise it accumulates base-16
digits.  `IndexFromString` discards the error, so only the returned
value is modelled. -/
def parseLoop : List Char → Nat → Nat
  | [], n => n
  | c :: cs, n =>
    match hexDigitVal c with
    | none => 0
    | some d =>
      if 1152921504606846976 ≤ n then 18446744073709551615
      else if 18446744073709551615 < 16 * n + d then 18446744073709551615
      else parseLoop cs (16 * n + d)

/-- Go's `strconv.ParseUint(s, 16, 64)` as used by `IndexFromString`:
the empty string is a syntax error returning 0; otherwise the
accumulation loop starting from 0. -/
def ParseUint64Hex (s : List Char) : Nat :=
  match s with
  | [] => 0
  | _ :: _ => parseLoop s 0

/-- The strip condition of `IndexFromString` (src/h3.go):
`len(s) > 2 && strings.ToLower(s[:2]) == "0x"`. -/
def strip0xCond (s : List Char) : Prop :=
  2 < s.length ∧ s.getD 0 ' ' = '0' ∧ (s.getD 1 ' ' = 'x' ∨ s.getD 1 ' ' = 'X')

instance (s : List Char) : Decidable (strip0xCond s) := by
  unfold strip0xCond
  infer_instance

/-- The prefix-stripping step of `IndexFromString` (src/h3.go). -/
def strip0x (s : List Char) : List Char :=
  if strip0xCond s then s.drop 2 else s

/-- Embeds `IndexFromString` (src/h3.go): strips an optional leading `0x`/`0X`
(only when more than two characters long) and parses the rest as an
unsigned 64-bit base-16 integer, ignoring the parse error. -/
def IndexFromString (s : List Char) : Nat :=
  ParseUint64Hex (strip0x s)

/-- The digit table of Go's `strconv.FormatUint`:
`"0123456789abcdefghijklmnopqrstuvwxyz"`; for values below 16 this is
`0`..`9` then `a`..`f`. -/
def toHexChar (d : Nat) : Char :=
  if d < 10 then Char.ofNat (48 + d) else Char.ofNat (87 + d)

/-- The digit-emission loop of Go's `strconv.FormatUint(i, 16)`:
produces the base-16 digits of `n`, most significant first, in front of
`acc`. -/
def toHexAux (n : Nat) (acc : List Char) : List Char :=
  if h : n = 0 then acc
  else toHexAux (n / 16) (toHexChar (n % 16) :: acc)
termination_by n
decreasing_by
  exact Nat.div_lt_self (Nat.pos_of_ne_zero h) (by norm_num)

/-- Embeds `IndexToString` (src/h3.go) = Go `strconv.FormatUint(i, 16)`:
`"0"` for 0, else the minimal base-16 digit string. -/
def IndexToString (n : Nat) : List Char :=
  if n = 0 then ['0'] else toHexAux n []

/-- Membership in the lowercase hexadecimal alphabet actually emitted
by `IndexToString`. -/
def isLowerHexDigit (c : Char) : Bool :=
  c ∈ ('0' :: '1' :: '2' :: '3' :: '4' :: '5' :: '6' :: '7' :: '8' :: '9' ::
       'a' :: 'b' :: 'c' :: 'd' :: 'e' :: 'f' :: [])

/-- Base-16 accumulation of the digit values of `s` on top of the seed
`n` (the digit values `parseLoop` would accumulate, without its error
exits). -/
def hexFold (n : Nat) (s : List Char) : Nat :=
  s.foldl (fun n c => 16 * n + (hexDigitVal c).getD 0) n

/-- The numeric value denoted by a list of hex digits (most significant
first); used to state well-formedness of a 64-bit hex representation. -/
def hexVal (s : List Char) : Nat :=
  hexFold 0 s

/-- A string is a well-formed base-16 representation of a 64-bit index:
non-empty, all characters hex digits, and value below `2^64`. -/
def WellFormedHex64 (s : List Char) : Prop :=
  s ≠ [] ∧ s.all (fun c => (hexDigitVal c).isSome) = true ∧
    hexVal s < 18446744073709551616

instance (s : List Char) : Decidable (WellFormedHex64 s) := by
  unfold WellFormedHex64
  infer_instance

/-- Wrapping of a mathematical integer into Go's two's-complement
64-bit `int` (the word size on every platform this cgo binding builds
for). -/
def wrap64 (z : Int) : Int :=
  (z + 9223372036854775808) % 18446744073709551616 - 9223372036854775808

/-- The multiplication loop of `intPow` (src/h3.go): `result *= n`
performed `k` times, each multiplication wrapping at 64 bits. -/
def intPowLoop (n : Int) : Int → Nat → Int
  | acc, 0 => acc
  | acc, k + 1 => intPowLoop n (wrap64 (acc * n)) k

/-- Embeds `intPow` (src/h3.go): 1 for exponent 0; otherwise starts from `n`
and multiplies `m - 1` further times (the loop runs for `i = 2..m`). -/
def intPow (n : Int) (m : Nat) : Int :=
  if m = 0 then 1 else intPowLoop n n (m - 1)

/-- Embeds `NumCells` (src/h3.go): `2 + 120*intPow(7, resolution)` in Go
64-bit `int` arithmetic. -/
def NumCells (resolution : Nat) : Int :=
  wrap64 (2 + wrap64 (120 * intPow 7 resolution))

/-- Modelled from the spec: the engine's hollow-ring routine is absent
from src/; the spec fixes only that "for k=0 this is just the origin",
so for `k = 0` the engine fills the one-entry buffer (`ringSize 0 = 1`)
with the origin and reports success (code 0).  Behavior for other `k`
is not used by any theorem here. -/
def gridRingEngineK0 : GridEngine :=
  fun origin k => if k = 0 then ([origin], 0) else ([], 0)

/-- Modelled from the spec: a cell of the index hierarchy, given by its
base cell number and its digit sequence (one digit per resolution
level); the resolution is the length of the digit sequence. -/
structure HCell where
  base : Nat
  digits : List Nat
deriving DecidableEq

/-- Resolution of a modelled cell. -/
def HCell.res (c : HCell) : Nat := c.digits.length

/-- Modelled from the spec: the twelve designated pentagon base cells
(the spec fixes their count, not their numbers; the concrete numbers
are the H3 ones and play no structural role). -/
def pentagonBases : List Nat :=
  [4, 14, 24, 38, 49, 58, 63, 72, 83, 97, 107, 117]

/-- Modelled from the spec: the admissible child digits under a base
cell — `{0..6}` for hexagonal base cells and, per the spec's data-model
invariant ("no digit 0 along the pentagon's missing child"), `{1..6}`
under the twelve pentagon base cells. -/
def allowedDigits (b : Nat) : List Nat :=
  if b ∈ pentagonBases then [1, 2, 3, 4, 5, 6] else [0, 1, 2, 3, 4, 5, 6]

/-- Modelled from the spec: structural validity of a cell — base cell
number in range, resolution at most 15, every digit admissible. -/
def HCell.valid (c : HCell) : Prop :=
  c.base < 122 ∧ c.digits.length ≤ 15 ∧ ∀ d ∈ c.digits, d ∈ allowedDigits c.base

instance (c : HCell) : Decidable c.valid := by
  unfold HCell.valid
  infer_instance

/-- Modelled from the spec: the child of `p` reached by appending one
digit. -/
def childCell (p : HCell) (d : Nat) : HCell :=
  ⟨p.base, p.digits ++ [d]⟩

/-- Modelled from the spec: the immediate children of a cell. -/
def childrenOf (p : HCell) : List HCell :=
  (allowedDigits p.base).map (childCell p)

/-- Modelled from the spec: the full descendant set of a cell `n`
resolution levels further down (the cell itself for `n = 0`). -/
def descendantsTo (c : HCell) : Nat → List HCell
  | 0 => [c]
  | n + 1 => (childrenOf c).flatMap (fun ch => descendantsTo ch n)

/-- Modelled from the spec: the expansion step of `uncompact` — every
input cell is replaced by its full descendant set at resolution `R`. -/
def uncompactList (S : List HCell) (R : Nat) : List HCell :=
  S.flatMap (fun c => descendantsTo c (R - c.res))

/-- Modelled from the spec: `uncompact(cells, targetRes)` — fails with
`ResolutionMismatch` (modelled as `none`) if any input cell exceeds the
target resolution, otherwise expands every cell to the target. -/
def uncompact (S : List HCell) (R : Nat) : Option (List HCell) :=
  if S.all (fun c => decide (c.res ≤ R)) then some (uncompactList S R) else none

/-- Modelled from the spec: the immediate parent (digit sequence
truncated by one). -/
def parentCell (c : HCell) : HCell :=
  ⟨c.base, c.digits.dropLast⟩

/-- Modelled from the spec: `p`'s child set is completely present in
`S` — every admissible child of `p` occurs in `S`. -/
def isCompleteIn (p : HCell) (S : List HCell) : Bool :=
  (allowedDigits p.base).all (fun d => decide (childCell p d ∈ S))

/-- Modelled from the spec: `compact(cells)` "repeatedly replaces any
complete, duplicate-free set of the ... children of a common parent
with that parent, continuing upward until no further merge is
possible".  For input at uniform resolution `r` merges can only cascade
level by level, so the recursion keeps the cells whose sibling set is
incomplete and lifts each completely-present parent one level, then
compacts the lifted parents (at uniform resolution one lower). -/
def compactRec : Nat → List HCell → List HCell
  | 0, S => S
  | r + 1, S =>
    S.filter (fun c => !isCompleteIn (parentCell c) S) ++
      compactRec r (((S.map parentCell).dedup).filter (fun p => isCompleteIn p S))

/-- Modelled from the spec: `compact` on a uniform-resolution input set
(the resolution is read off the first cell). -/
def compact (S : List HCell) : List HCell :=
  compactRec (match S with | [] => 0 | c :: _ => c.res) S

/-- Set equality of two cell lists, as a computable check. -/
def eqAsSets (a b : List HCell) : Bool :=
  a.all (fun x => decide (x ∈ b)) && b.all (fun x => decide (x ∈ a))

/-- The predicate "is not the zero index", used to characterise the
refit loop. -/
def nonzero : Int → Bool := fun x => decide (x ≠ 0)

/-! ### Helper lemmas about the prune path of `cellsFromC` -/

theorem pruneLoop_false (l : List Int) : pruneLoop false l = l := by
  simp [pruneLoop]

theorem mem_cellsFromC_prune_pos (l : List Int) (x : Int)
    (hx : x ∈ cellsFromC l true false) : 0 < x := by
  unfold cellsFromC pruneLoop at hx
  simp only [if_neg Bool.false_ne_true] at hx
  rcases List.mem_filter.mp hx with ⟨-, hpred⟩
  simp only [Bool.true_and, Bool.not_eq_eq_eq_not, Bool.not_true,
    decide_eq_false_iff_not, not_le] at hpred
  exact hpred

theorem allPos_cellsFromC (l : List Int) :
    (cellsFromC l true false).all (fun x => decide (0 < x)) = true := by
  rw [List.all_eq_true]
  intro x hx
  simpa using mem_cellsFromC_prune_pos l x hx

theorem length_cellsFromC_prune_le (l : List Int) :
    (cellsFromC l true false).length ≤ l.length := by
  unfold cellsFromC pruneLoop
  simp only [if_neg Bool.false_ne_true]
  exact List.length_filter_le _ _

theorem cellsFromC_prune_pos_all (l : List Int)
    (h : ∀ x ∈ l, 0 < x) : cellsFromC l true false = l := by
  unfold cellsFromC pruneLoop
  simp only [if_neg Bool.false_ne_true]
  rw [List.filter_eq_self]
  intro x hx
  simp [not_le.mpr (h x hx)]

/-! ### C4: the validity wrapper rejects index 0 structurally -/

/-- C4: `Cell(0).IsValid()` is `false`, decided by the wrapper's
`c != 0` guard for every possible engine validity predicate, i.e.
before any engine computation. -/
theorem isValid_rejects_zero (engineIsValid : Int → Bool) :
    IsValid engineIsValid 0 = false := by
  simp [IsValid]

/-! ### C5: the grid-disk output length bound -/

/-- C5: whenever the engine's output buffer has the allocated size
`maxGridDiskSize k`, the slice returned by `GridDisk` has length at
most `3*k*(k+1) + 1`, regardless of the buffer's contents. -/
theorem gridDisk_length_bound (engine : GridEngine) (origin : Int) (k : Nat)
    (hbuf : ((engine origin k).1).length = maxGridDiskSize k) :
    ((GridDisk engine origin k).1).length ≤ 3 * k * (k + 1) + 1 := by
  have h := length_cellsFromC_prune_le (engine origin k).1
  rw [hbuf] at h
  exact h

/-- Witness for C5 at `k = 0` with a one-entry buffer. -/
theorem gridDisk_length_bound_witness :
    ((fun (_ : Int) (_ : Nat) => (([7] : List Int), (0 : Nat))) 0 0).1.length =
      maxGridDiskSize 0 ∧
    ((GridDisk (fun _ _ => ([7], 0)) 0 0).1).length ≤ 3 * 0 * (0 + 1) + 1 :=
  ⟨by decide, gridDisk_length_bound (fun _ _ => ([7], 0)) 0 0 (by decide)⟩

/-! ### C6: negative k is a domain error for rings; k = 0 yields the origin -/

/-- C6: for `k < 0` both ring wrappers return the `nil` slice and
`ErrDomain` for every engine (the engine is never consulted); for
`k = 0`, with the engine's ring routine as the spec models it, a
positive origin cell is returned alone with a `nil` error. -/
theorem gridRing_domain_and_k0 (engine engine' : GridEngine)
    (origin : Int) (k : Int) (hk : k < 0) (horigin : 0 < origin) :
    GridRing engine origin k = (none, some H3GoError.domain) ∧
    GridRingFast engine' origin k = (none, some H3GoError.domain) ∧
    GridRing gridRingEngineK0 origin 0 = (some [origin], none) ∧
    GridRingFast gridRingEngineK0 origin 0 = (some [origin], none) := by
  refine ⟨?_, ?_, ?_, ?_⟩
  · simp [GridRing, hk]
  · simp [GridRingFast, hk]
  · simp [GridRing, gridRingEngineK0, toErr,
      cellsFromC_prune_pos_all [origin] (by simpa using horigin)]
  · simp [GridRingFast, gridRingEngineK0, toErr,
      cellsFromC_prune_pos_all [origin] (by simpa using horigin)]

/-- Witness for C6 at `origin = 5`, `k = -1`. -/
theorem gridRing_domain_and_k0_witness :
    (-1 : Int) < 0 ∧ (0 : Int) < 5 ∧
    (GridRing gridRingEngineK0 5 (-1) = (none, some H3GoError.domain) ∧
     GridRingFast gridRingEngineK0 5 (-1) = (none, some H3GoError.domain) ∧
     GridRing gridRingEngineK0 5 0 = (some [5], none) ∧
     GridRingFast gridRingEngineK0 5 0 = (some [5], none)) :=
  ⟨by decide, by decide,
    gridRing_domain_and_k0 gridRingEngineK0 gridRingEngineK0 5 (-1)
      (by decide) (by decide)⟩

/-! ### C7: an empty outer loop yields an empty result, not an error -/

/-- C7: for every engine, resolution, containment mode and cap, calling
the polygon wrappers on a polygon whose outer loop is empty returns the
`nil` slice and the `nil` error. -/
theorem polygonToCells_empty_loop
    (sizeEngine : GeoPolygon → Int → Nat × Nat)
    (engine : GeoPolygon → Int → Nat → List Int × Nat)
    (sizeEngineX : GeoPolygon → Int → Nat → Nat × Nat)
    (engineX : GeoPolygon → Int → Nat → Int → Nat → List Int × Nat)
    (polygon : GeoPolygon) (resolution : Int) (mode : Nat)
    (maxNumCellsReturn : List Int)
    (hempty : polygon.geoLoop = []) :
    PolygonToCells sizeEngine engine polygon resolution = (none, none) ∧
    PolygonToCellsExperimental sizeEngineX engineX polygon resolution mode
      maxNumCellsReturn = (none, none) := by
  constructor
  · simp [PolygonToCells, hempty]
  · simp [PolygonToCellsExperimental, hempty]

/-- Witness for C7 on the concrete empty polygon. -/
theorem polygonToCells_empty_loop_witness :
    (GeoPolygon.mk [] []).geoLoop = [] ∧
    (PolygonToCells (fun _ _ => (0, 0)) (fun _ _ _ => ([], 0))
        (GeoPolygon.mk [] []) 9 = (none, none) ∧
     PolygonToCellsExperimental (fun _ _ _ => (0, 0))
        (fun _ _ _ _ _ => ([], 0)) (GeoPolygon.mk [] []) 9 0 [] =
        (none, none)) :=
  ⟨rfl, polygonToCells_empty_loop (fun _ _ => (0, 0)) (fun _ _ _ => ([], 0))
    (fun _ _ _ => (0, 0)) (fun _ _ _ _ _ => ([], 0))
    (GeoPolygon.mk [] []) 9 0 [] rfl⟩

/-! ### C9: every exposed traversal cell is strictly positive -/

theorem gridDisksFast_allPos (engine : GridEngine) (origins : List Int)
    (k : Nat) :
    (((GridDisksFast engine origins k).1).getD []).all
      (fun l => l.all (fun x => decide (0 < x))) = true := by
  induction origins with
  | nil => simp [GridDisksFast]
  | cons o os ih =>
    unfold GridDisksFast
    dsimp only
    cases htoe : toErr (engine o k).2 with
    | some e => simp
    | none =>
      rcases hrec : GridDisksFast engine os k with ⟨o1, o2⟩
      rw [hrec] at ih
      cases o1 with
      | none => cases o2 <;> simp
      | some rest =>
        cases o2 with
        | none =>
          simp only [Option.getD_some] at ih ⊢
          simp [List.all_cons, ih, allPos_cellsFromC]
        | some e => simpa using ih

/-- C9: every element of the cell slices returned by `GridDisk`, the
multi-origin fast grid-disk wrapper, `GridRing` and the fast ring
wrapper is strictly positive (the zero "holes" the engine may leave are
pruned), for every engine, origin and k. -/
theorem grid_outputs_positive (e1 e2 e3 e4 : GridEngine) (origin : Int)
    (origins : List Int) (k : Nat) (kr : Int) :
    ((GridDisk e1 origin k).1).all (fun x => decide (0 < x)) = true ∧
    (((GridDisksFast e2 origins k).1).getD []).all
      (fun l => l.all (fun x => decide (0 < x))) = true ∧
    (((GridRing e3 origin kr).1).getD []).all
      (fun x => decide (0 < x)) = true ∧
    (((GridRingFast e4 origin kr).1).getD []).all
      (fun x => decide (0 < x)) = true := by
  refine ⟨allPos_cellsFromC _, gridDisksFast_allPos e2 origins k, ?_, ?_⟩
  · unfold GridRing
    split
    · simp
    · simpa using allPos_cellsFromC (e3 origin kr.toNat).1
  · unfold GridRingFast
    split
    · simp
    · simpa using allPos_cellsFromC (e4 origin kr.toNat).1

/-! ### C10: the refit loop keeps exactly the longest zero-free prefix -/

theorem getD_of_length_le (l : List Int) (n : Nat) (d : Int)
    (h : l.length ≤ n) : l.getD n d = d := by
  induction l generalizing n with
  | nil => simp
  | cons a t ih =>
    cases n with
    | zero => simp at h
    | succ m => simpa using ih m (by simpa using h)

theorem take_succ_getD (l : List Int) (n : Nat) (d : Int)
    (h : n < l.length) : l.take (n + 1) = l.take n ++ [l.getD n d] := by
  induction l generalizing n with
  | nil => simp at h
  | cons a t ih =>
    cases n with
    | zero => simp
    | succ m =>
      simp only [List.take_succ_cons, List.getD_cons_succ, List.cons_append,
        List.cons.injEq, true_and]
      exact ih m (by simpa using h)

theorem takeWhile_of_all (p : Int → Bool) (l : List Int)
    (h : l.all p = true) : l.takeWhile p = l := by
  induction l with
  | nil => rfl
  | cons a t ih =>
    simp only [List.all_cons, Bool.and_eq_true] at h
    simp [List.takeWhile_cons, h.1, ih h.2]

theorem all_take_of_all (p : Int → Bool) (n : Nat) (l : List Int)
    (h : l.all p = true) : (l.take n).all p = true := by
  induction l generalizing n with
  | nil => simp
  | cons a t ih =>
    cases n with
    | zero => simp
    | succ m =>
      simp only [List.all_cons, Bool.and_eq_true] at h
      simp [List.take_succ_cons, List.all_cons, h.1, ih m h.2]

theorem takeWhile_take_of_not_all (p : Int → Bool) (n : Nat) (l : List Int)
    (h : (l.take n).all p = false) :
    (l.take n).takeWhile p = l.takeWhile p := by
  induction l generalizing n with
  | nil => simp
  | cons a t ih =>
    cases n with
    | zero => simp at h
    | succ m =>
      simp only [List.take_succ_cons] at h ⊢
      cases hpa : p a with
      | false => simp [List.takeWhile_cons, hpa]
      | true =>
        simp only [List.all_cons, hpa, Bool.true_and] at h
        simp [List.takeWhile_cons, hpa, ih m h]

theorem takeWhile_eq_take (p : Int → Bool) (n : Nat) (l : List Int)
    (hall : (l.take n).all p = true) (hlen : n < l.length)
    (hfail : p (l.getD n 1) = false) : l.takeWhile p = l.take n := by
  induction l generalizing n with
  | nil => simp at hlen
  | cons a t ih =>
    cases n with
    | zero =>
      simp only [List.getD_cons_zero] at hfail
      simp [List.takeWhile_cons, hfail]
    | succ m =>
      simp only [List.take_succ_cons, List.all_cons, Bool.and_eq_true] at hall
      simp only [List.getD_cons_succ] at hfail
      simp [List.takeWhile_cons, hall.1,
        ih m hall.2 (by simpa using hlen) hfail]

theorem refitIter_eq (i : Nat) : ∀ l : List Int,
    refitIter l i =
      if (l.take (i + 1)).all nonzero = true then l
      else l.takeWhile nonzero := by
  induction i with
  | zero =>
    intro l
    cases l with
    | nil => simp [refitIter]
    | cons a t =>
      by_cases ha : a = 0
      · subst ha
        simp [refitIter, nonzero]
      · simp [refitIter, nonzero, ha]
  | succ i ih =>
    intro l
    show refitIter (if l.getD (i + 1) 1 = 0 then l.take (i + 1) else l) i = _
    by_cases hz : l.getD (i + 1) 1 = 0
    · have hb : i + 1 < l.length := by
        by_contra hle
        rw [getD_of_length_le l (i + 1) 1 (le_of_not_lt hle)] at hz
        exact one_ne_zero hz
      rw [if_pos hz, ih]
      have htt : (l.take (i + 1)).take (i + 1) = l.take (i + 1) := by
        rw [List.take_take, min_self]
      have hsucc : l.take (i + 1 + 1) = l.take (i + 1) ++ [(0 : Int)] := by
        rw [← hz]
        exact take_succ_getD l (i + 1) 1 hb
      have hfail : nonzero (l.getD (i + 1) 1) = false := by
        rw [hz]
        simp [nonzero]
      have hbig : (l.take (i + 1 + 1)).all nonzero = false := by
        rw [hsucc, List.all_append]
        simp [nonzero]
      rw [hbig]
      simp only [Bool.false_eq_true, if_false]
      rw [htt]
      by_cases hall : (l.take (i + 1)).all nonzero = true
      · rw [if_pos hall]
        exact (takeWhile_eq_take nonzero (i + 1) l hall hb hfail).symm
      · rw [if_neg hall]
        exact takeWhile_take_of_not_all nonzero (i + 1) l
          (Bool.eq_false_iff.mpr hall)
    · rw [if_neg hz, ih]
      by_cases hb : i + 1 < l.length
      · have hsucc : l.take (i + 1 + 1) =
            l.take (i + 1) ++ [l.getD (i + 1) 1] :=
          take_succ_getD l (i + 1) 1 hb
        have hone : [l.getD (i + 1) 1].all nonzero = true := by
          simp only [List.all_cons, List.all_nil, Bool.and_true]
          exact decide_eq_true hz
        have hsame : (l.take (i + 1 + 1)).all nonzero =
            (l.take (i + 1)).all nonzero := by
          rw [hsucc, List.all_append, hone, Bool.and_true]
        rw [hsame]
      · have h1 : l.take (i + 1) = l := List.take_of_length_le (by omega)
        have h2 : l.take (i + 1 + 1) = l := List.take_of_length_le (by omega)
        rw [h1, h2]

theorem cellsFromC_refit_takeWhile (buf : List Int) :
    cellsFromC buf false true = buf.takeWhile nonzero := by
  unfold cellsFromC
  rw [pruneLoop_false]
  cases buf with
  | nil => rfl
  | cons a t =>
    simp only [if_pos rfl, List.length_cons]
    rw [refitIter_eq t.length (a :: t)]
    have htake : (a :: t).take (t.length + 1) = a :: t :=
      List.take_of_length_le (by simp)
    rw [htake]
    by_cases hall : (a :: t).all nonzero = true
    · rw [if_pos hall, takeWhile_of_all nonzero (a :: t) hall]
      simp
    · rw [if_neg hall]
      simp

theorem all_takeWhile_self (p : Int → Bool) (l : List Int) :
    (l.takeWhile p).all p = true := by
  induction l with
  | nil => rfl
  | cons a t ih =>
    cases hpa : p a with
    | false => simp [List.takeWhile_cons, hpa]
    | true => simp [List.takeWhile_cons, hpa, ih]

/-- C10: the refit path of `cellsFromC` (as invoked, with pruning off)
returns exactly the longest prefix of the raw engine buffer containing
no zero entry — every entry after an interior zero is discarded, zero
or not; consequently the slices `CompactCells` and `UncompactCells`
return never contain the zero index. -/
theorem cellsFromC_refit_longest_prefix (buf : List Int)
    (cengine : List Int → List Int × Nat)
    (usize : List Int → Int → Nat × Nat)
    (uengine : List Int → Int → Nat → List Int × Nat)
    (inp : List Int) (resolution : Int) :
    cellsFromC buf false true = buf.takeWhile nonzero ∧
    ((CompactCells cengine inp).1).all nonzero = true ∧
    (((UncompactCells usize uengine inp resolution).1).getD []).all
      nonzero = true := by
  refine ⟨cellsFromC_refit_takeWhile buf, ?_, ?_⟩
  · unfold CompactCells
    dsimp only
    rw [cellsFromC_refit_takeWhile]
    exact all_takeWhile_self nonzero _
  · unfold UncompactCells
    dsimp only
    cases toErr (usize inp resolution).2 with
    | some e => simp
    | none =>
      simp only [Option.getD_some]
      rw [cellsFromC_refit_takeWhile]
      exact all_takeWhile_self nonzero _

/-! ### C8: the NumCells formula -/

/-- C8 (amended): for every resolution up to 19 — which covers all
valid H3 resolutions 0..15 — `NumCells` computes exactly
`2 + 120 * 7^resolution` in pure integer arithmetic, and
`NumCells 0 = 122`, the number of base cells. -/
theorem numCells_formula (resolution : Nat) (h : resolution ≤ 19) :
    NumCells resolution = 2 + 120 * 7 ^ resolution ∧ NumCells 0 = 122 := by
  refine ⟨?_, by decide⟩
  have hall : ∀ r : Nat, r ≤ 19 → NumCells r = 2 + 120 * 7 ^ r := by decide
  exact hall resolution h

/-- Witness for C8 at resolution 0. -/
theorem numCells_formula_witness :
    0 ≤ 19 ∧ (NumCells 0 = 2 + 120 * 7 ^ 0 ∧ NumCells 0 = 122) :=
  ⟨by decide, numCells_formula 0 (by decide)⟩

set_option maxRecDepth 4000 in
/-- Counterexample to C8 as stated for every resolution ≥ 0: at
resolution 20 the Go 64-bit `int` computation `120 * intPow(7, 20)`
overflows, so `NumCells 20` (which is negative) differs from
`2 + 120 * 7^20`. -/
theorem numCells_overflow_cex : NumCells 20 ≠ 2 + 120 * 7 ^ 20 := by decide

/-! ### Parsing lemmas for C2 and C3 -/

theorem hexDigitVal_lt (c : Char) (d : Nat) (h : hexDigitVal c = some d) :
    d < 16 := by
  unfold hexDigitVal at h
  cases hraw : rawDigitVal c with
  | none =>
    rw [hraw] at h
    exact absurd h (by simp)
  | some d' =>
    rw [hraw] at h
    dsimp only at h
    by_cases hd : d' < 16
    · rw [if_pos hd] at h
      cases h
      exact hd
    · rw [if_neg hd] at h
      exact absurd h (by simp)

theorem hexFold_cons (n : Nat) (c : Char) (cs : List Char) :
    hexFold n (c :: cs) = hexFold (16 * n + (hexDigitVal c).getD 0) cs := rfl

theorem hexFold_ge (cs : List Char) : ∀ n : Nat, n ≤ hexFold n cs := by
  induction cs with
  | nil => intro n; exact le_refl n
  | cons c cs ih =>
    intro n
    rw [hexFold_cons]
    calc n ≤ 16 * n + (hexDigitVal c).getD 0 := by omega
      _ ≤ hexFold (16 * n + (hexDigitVal c).getD 0) cs := ih _

theorem all_isSome_cons (c : Char) (cs : List Char)
    (h : (c :: cs).all (fun c => (hexDigitVal c).isSome) = true) :
    (∃ d, hexDigitVal c = some d) ∧
      cs.all (fun c => (hexDigitVal c).isSome) = true := by
  rw [List.all_cons, Bool.and_eq_true] at h
  exact ⟨Option.isSome_iff_exists.mp h.1, h.2⟩

theorem parseLoop_syntax_error (cs : List Char) :
    ∀ n : Nat, cs.all (fun c => (hexDigitVal c).isSome) = false →
      parseLoop cs n = 0 ∨ parseLoop cs n = 18446744073709551615 := by
  induction cs with
  | nil =>
    intro n h
    simp at h
  | cons c cs ih =>
    intro n h
    unfold parseLoop
    cases hd : hexDigitVal c with
    | none => exact Or.inl rfl
    | some d =>
      have hcs : cs.all (fun c => (hexDigitVal c).isSome) = false := by
        simp only [List.all_cons, hd, Option.isSome_some, Bool.true_and] at h
        exact h
      dsimp only
      by_cases h1 : 1152921504606846976 ≤ n
      · rw [if_pos h1]
        exact Or.inr rfl
      · rw [if_neg h1]
        by_cases h2 : 18446744073709551615 < 16 * n + d
        · rw [if_pos h2]
          exact Or.inr rfl
        · rw [if_neg h2]
          exact ih _ hcs

theorem parseLoop_range_error (cs : List Char) :
    ∀ n : Nat, cs.all (fun c => (hexDigitVal c).isSome) = true →
      n < 1152921504606846976 → 18446744073709551616 ≤ hexFold n cs →
      parseLoop cs n = 18446744073709551615 := by
  induction cs with
  | nil =>
    intro n _ hlt hge
    unfold hexFold at hge
    simp only [List.foldl_nil] at hge
    omega
  | cons c cs ih =>
    intro n hall hlt hge
    obtain ⟨⟨d, hd⟩, hcs⟩ := all_isSome_cons c cs hall
    have hd16 : d < 16 := hexDigitVal_lt c d hd
    unfold parseLoop
    rw [hd]
    dsimp only
    rw [if_neg (by omega), if_neg (by omega)]
    rw [hexFold_cons, hd] at hge
    simp only [Option.getD_some] at hge
    by_cases hnext : 16 * n + d < 1152921504606846976
    · exact ih _ hcs hnext hge
    · cases cs with
      | nil =>
        unfold hexFold at hge
        simp only [List.foldl_nil] at hge
        omega
      | cons c' cs' =>
        obtain ⟨⟨d', hd'⟩, -⟩ := all_isSome_cons c' cs' hcs
        unfold parseLoop
        rw [hd']
        dsimp only
        rw [if_pos (by omega)]

theorem parseLoop_complete (cs : List Char) :
    ∀ n : Nat, cs.all (fun c => (hexDigitVal c).isSome) = true →
      hexFold n cs ≤ 18446744073709551615 →
      parseLoop cs n = hexFold n cs := by
  induction cs with
  | nil =>
    intro n _ _
    rfl
  | cons c cs ih =>
    intro n hall hle
    obtain ⟨⟨d, hd⟩, hcs⟩ := all_isSome_cons c cs hall
    have hd16 : d < 16 := hexDigitVal_lt c d hd
    rw [hexFold_cons, hd] at hle ⊢
    simp only [Option.getD_some] at hle ⊢
    have hgrow : 16 * n + d ≤ hexFold (16 * n + d) cs := hexFold_ge cs _
    have hn : ¬ 1152921504606846976 ≤ n := by omega
    unfold parseLoop
    rw [hd]
    dsimp only
    rw [if_neg hn, if_neg (by omega)]
    exact ih _ hcs hle

/-! ### C2: malformed strings (corrected) -/

/-- Counterexample to C2 as stated: the 17-digit string
`"10000000000000000"` (the hex numeral of `2^64`) is not a well-formed
representation of a 64-bit index, yet `IndexFromString` returns
`2^64 - 1` (Go's `ParseUint` range-error value), not 0. -/
theorem indexFromString_malformed_cex :
    ¬ WellFormedHex64 (strip0x
      ['1', '0', '0', '0', '0', '0', '0', '0', '0',
       '0', '0', '0', '0', '0', '0', '0', '0']) ∧
    IndexFromString
      ['1', '0', '0', '0', '0', '0', '0', '0', '0',
       '0', '0', '0', '0', '0', '0', '0', '0'] ≠ 0 := by
  constructor
  · decide
  · decide

/-- C2 (amended): for every string whose stripped form is not a
well-formed 64-bit hex representation, `IndexFromString` returns 0 (on
a syntax problem) or `2^64 - 1` (on a detected range overflow) — never
a third value — and index 0 is never valid, for every engine validity
predicate. -/
theorem indexFromString_malformed (s : List Char) (engineIsValid : Int → Bool)
    (h : ¬ WellFormedHex64 (strip0x s)) :
    (IndexFromString s = 0 ∨ IndexFromString s = 18446744073709551615) ∧
    IsValid engineIsValid 0 = false := by
  refine ⟨?_, isValid_rejects_zero engineIsValid⟩
  unfold IndexFromString ParseUint64Hex
  cases hst : strip0x s with
  | nil => exact Or.inl rfl
  | cons c cs =>
    rw [hst] at h
    unfold WellFormedHex64 at h
    push_neg at h
    cases hall : (c :: cs).all (fun c => (hexDigitVal c).isSome) with
    | false => exact parseLoop_syntax_error (c :: cs) 0 hall
    | true =>
      have hge : 18446744073709551616 ≤ hexVal (c :: cs) := by
        have := h (by simp) hall
        omega
      exact Or.inr (parseLoop_range_error (c :: cs) 0 hall (by omega) hge)

/-- Witness for C2 (amended) on the non-hex string `"zz"`. -/
theorem indexFromString_malformed_witness :
    ¬ WellFormedHex64 (strip0x ['z', 'z']) ∧
    ((IndexFromString ['z', 'z'] = 0 ∨
      IndexFromString ['z', 'z'] = 18446744073709551615) ∧
     IsValid (fun _ => true) 0 = false) :=
  ⟨by decide, indexFromString_malformed ['z', 'z'] (fun _ => true) (by decide)⟩

/-! ### Formatting lemmas for C3 -/

theorem toHexAux_zero (acc : List Char) : toHexAux 0 acc = acc := by
  rw [toHexAux]
  simp

theorem toHexAux_pos (n : Nat) (acc : List Char) (h : n ≠ 0) :
    toHexAux n acc = toHexAux (n / 16) (toHexChar (n % 16) :: acc) := by
  conv_lhs => rw [toHexAux]
  rw [dif_neg h]

theorem toHexAux_append (n : Nat) : ∀ acc : List Char,
    toHexAux n acc = toHexAux n [] ++ acc := by
  induction n using Nat.strong_induction_on with
  | _ n ih =>
    intro acc
    by_cases h : n = 0
    · subst h
      rw [toHexAux_zero, toHexAux_zero]
      simp
    · have hlt : n / 16 < n := Nat.div_lt_self (Nat.pos_of_ne_zero h) (by norm_num)
      rw [toHexAux_pos n acc h, toHexAux_pos n [] h,
        ih (n / 16) hlt (toHexChar (n % 16) :: acc),
        ih (n / 16) hlt (toHexChar (n % 16) :: [])]
      simp

theorem toHexAux_ne_nil (n : Nat) (h : n ≠ 0) : toHexAux n [] ≠ [] := by
  rw [toHexAux_pos n [] h, toHexAux_append (n / 16)]
  simp

theorem toHexChar_facts :
    ∀ d : Nat, d < 16 → hexDigitVal (toHexChar d) = some d ∧
      isLowerHexDigit (toHexChar d) = true := by
  decide

theorem toHexAux_all_lower (n : Nat) : ∀ acc : List Char,
    acc.all isLowerHexDigit = true →
    (toHexAux n acc).all isLowerHexDigit = true := by
  induction n using Nat.strong_induction_on with
  | _ n ih =>
    intro acc hacc
    by_cases h : n = 0
    · subst h
      rw [toHexAux_zero]
      exact hacc
    · have hlt : n / 16 < n := Nat.div_lt_self (Nat.pos_of_ne_zero h) (by norm_num)
      rw [toHexAux_pos n acc h]
      refine ih (n / 16) hlt _ ?_
      rw [List.all_cons, hacc,
        (toHexChar_facts (n % 16) (Nat.mod_lt n (by norm_num))).2]
      rfl

theorem hexFold_append (n : Nat) (a b : List Char) :
    hexFold n (a ++ b) = hexFold (hexFold n a) b := by
  unfold hexFold
  exact List.foldl_append _ _ a b

theorem toHexAux_val (n : Nat) : ∀ m : Nat,
    hexFold m (toHexAux n []) = m * 16 ^ (toHexAux n []).length + n := by
  induction n using Nat.strong_induction_on with
  | _ n ih =>
    intro m
    by_cases h : n = 0
    · subst h
      rw [toHexAux_zero]
      simp [hexFold]
    · have hlt : n / 16 < n := Nat.div_lt_self (Nat.pos_of_ne_zero h) (by norm_num)
      have hsplit : toHexAux n [] = toHexAux (n / 16) [] ++ [toHexChar (n % 16)] := by
        rw [toHexAux_pos n [] h, toHexAux_append (n / 16)]
      rw [hsplit, hexFold_append, ih (n / 16) hlt m]
      have hdig : (hexDigitVal (toHexChar (n % 16))).getD 0 = n % 16 := by
        rw [(toHexChar_facts (n % 16) (Nat.mod_lt n (by norm_num))).1]
        rfl
      have hone : ∀ k : Nat, hexFold k [toHexChar (n % 16)] = 16 * k + n % 16 := by
        intro k
        rw [hexFold_cons, hdig]
        rfl
      rw [hone, List.length_append, List.length_cons, List.length_nil]
      have hmod : 16 * (n / 16) + n % 16 = n := by omega
      set k := (toHexAux (n / 16) []).length
      rw [pow_succ]
      have hexp : 16 * (m * 16 ^ k + n / 16) + n % 16 =
          m * (16 ^ k * 16) + (16 * (n / 16) + n % 16) := by ring
      rw [hexp, hmod]

theorem lower_hex_ne_x (c : Char) (h : isLowerHexDigit c = true) :
    c ≠ 'x' ∧ c ≠ 'X' := by
  unfold isLowerHexDigit at h
  rw [decide_eq_true_iff] at h
  fin_cases h <;> exact ⟨by decide, by decide⟩

theorem lower_hex_isSome (c : Char) (h : isLowerHexDigit c = true) :
    (hexDigitVal c).isSome = true := by
  unfold isLowerHexDigit at h
  rw [decide_eq_true_iff] at h
  fin_cases h <;> decide

theorem all_lower_isSome (l : List Char)
    (h : l.all isLowerHexDigit = true) :
    l.all (fun c => (hexDigitVal c).isSome) = true := by
  rw [List.all_eq_true] at h ⊢
  intro c hc
  exact lower_hex_isSome c (h c hc)

theorem no_strip_of_all_lower (l : List Char)
    (h : l.all isLowerHexDigit = true) : ¬ strip0xCond l := by
  intro hcond
  obtain ⟨hlen, h0, h1⟩ := hcond
  cases l with
  | nil => simp at hlen
  | cons a t =>
    cases t with
    | nil => simp at hlen
    | cons b r =>
      have hb : isLowerHexDigit b = true := by
        rw [List.all_eq_true] at h
        exact h b (by simp)
      have hgd : (a :: b :: r).getD 1 ' ' = b := rfl
      rw [hgd] at h1
      rcases h1 with h1 | h1
      · exact (lower_hex_ne_x b hb).1 h1
      · exact (lower_hex_ne_x b hb).2 h1

/-! ### C3: serialization round-trip (corrected) -/

/-- Counterexample to C3 as stated: the prefix-stripping identity
`IndexFromString("0x" + s) == IndexFromString(s)` fails for the
non-empty string `s = "0x5"`, which itself carries a strippable
prefix: the left side parses `"0x5"` (syntax error, 0), the right side
parses `"5"` (= 5). -/
theorem indexToString_roundtrip_cex :
    (['0', 'x', '5'] : List Char) ≠ [] ∧
    IndexFromString ('0' :: 'x' :: ['0', 'x', '5']) ≠
      IndexFromString ['0', 'x', '5'] := by
  constructor
  · decide
  · decide

/-- C3 (amended): for every 64-bit value `i`, `IndexToString i` is a
non-empty all-lowercase-hex string, carries no strippable `0x` prefix,
and round-trips through `IndexFromString`; and the prefix-stripping
identity holds for every non-empty string that does not itself begin
with a strippable `0x`/`0X` prefix. -/
theorem indexToString_roundtrip (i : Nat) (s : List Char)
    (hi : i < 18446744073709551616) (hs : s ≠ [])
    (hstrip : ¬ strip0xCond s) :
    (IndexToString i ≠ [] ∧
     (IndexToString i).all isLowerHexDigit = true ∧
     strip0x (IndexToString i) = IndexToString i ∧
     IndexFromString (IndexToString i) = i) ∧
    IndexFromString ('0' :: 'x' :: s) = IndexFromString s := by
  constructor
  · by_cases h0 : i = 0
    · subst h0
      refine ⟨by decide, by decide, by decide, by decide⟩
    · have htc : IndexToString i = toHexAux i [] := by
        unfold IndexToString
        rw [if_neg h0]
      have hne : toHexAux i [] ≠ [] := toHexAux_ne_nil i h0
      have hlower : (toHexAux i []).all isLowerHexDigit = true :=
        toHexAux_all_lower i [] rfl
      have hnostrip : strip0x (toHexAux i []) = toHexAux i [] := by
        unfold strip0x
        rw [if_neg (no_strip_of_all_lower _ hlower)]
      have hval : hexFold 0 (toHexAux i []) = i := by
        rw [toHexAux_val i 0]
        simp
      have hparse : IndexFromString (toHexAux i []) = i := by
        unfold IndexFromString
        rw [hnostrip]
        cases hts : toHexAux i [] with
        | nil => exact absurd hts hne
        | cons c cs =>
          rw [hts] at hlower hval
          unfold ParseUint64Hex
          dsimp only
          rw [parseLoop_complete (c :: cs) 0 (all_lower_isSome _ hlower)
            (by rw [hval]; omega), hval]
      rw [htc]
      exact ⟨hne, hlower, hnostrip, hparse⟩
  · have hcond : strip0xCond ('0' :: 'x' :: s) := by
      refine ⟨?_, rfl, Or.inl rfl⟩
      cases s with
      | nil => exact absurd rfl hs
      | cons a t => simp
    unfold IndexFromString
    unfold strip0x
    rw [if_pos hcond, if_neg hstrip]
    rfl

/-- Witness for C3 (amended) at `i = 255` and `s = "ff"`. -/
theorem indexToString_roundtrip_witness :
    255 < 18446744073709551616 ∧ (['f', 'f'] : List Char) ≠ [] ∧
    ¬ strip0xCond ['f', 'f'] ∧
    ((IndexToString 255 ≠ [] ∧
      (IndexToString 255).all isLowerHexDigit = true ∧
      strip0x (IndexToString 255) = IndexToString 255 ∧
      IndexFromString (IndexToString 255) = 255) ∧
     IndexFromString ('0' :: 'x' :: ['f', 'f']) =
       IndexFromString ['f', 'f']) :=
  ⟨by decide, by decide, by decide,
    indexToString_roundtrip 255 ['f', 'f'] (by decide) (by decide) (by decide)⟩

/-! ### Hierarchy lemmas for C1 -/

theorem childCell_res (p : HCell) (d : Nat) :
    (childCell p d).res = p.res + 1 := by
  simp [childCell, HCell.res]

theorem childCell_base (p : HCell) (d : Nat) :
    (childCell p d).base = p.base := rfl

theorem mem_childrenOf (p c : HCell) :
    c ∈ childrenOf p ↔ ∃ d ∈ allowedDigits p.base, childCell p d = c := by
  simp [childrenOf, List.mem_map]

theorem self_mem_childrenOf_parent (c : HCell) (hvalid : c.valid)
    (hne : c.digits ≠ []) : c ∈ childrenOf (parentCell c) := by
  rw [mem_childrenOf]
  refine ⟨c.digits.getLast hne, ?_, ?_⟩
  · have hmem : c.digits.getLast hne ∈ c.digits := List.getLast_mem hne
    have hpbase : (parentCell c).base = c.base := rfl
    rw [hpbase]
    exact hvalid.2.2 _ hmem
  · show (⟨c.base, c.digits.dropLast ++ [c.digits.getLast hne]⟩ : HCell) = c
    rw [List.dropLast_append_getLast hne]

theorem parentCell_valid (c : HCell) (h : c.valid) : (parentCell c).valid := by
  refine ⟨h.1, ?_, ?_⟩
  · show c.digits.dropLast.length ≤ 15
    rw [List.length_dropLast]
    have h15 := h.2.1
    omega
  · intro d hd
    have : d ∈ c.digits := by
      have hsub : c.digits.dropLast ⊆ c.digits := by
        rw [List.dropLast_eq_take]
        exact List.take_subset _ _
      exact hsub hd
    exact h.2.2 d this

theorem parentCell_res_succ (c : HCell) (r : Nat) (h : c.res = r + 1) :
    (parentCell c).res = r := by
  show c.digits.dropLast.length = r
  rw [List.length_dropLast]
  unfold HCell.res at h
  omega

theorem digits_ne_nil_of_res_succ (c : HCell) (r : Nat) (h : c.res = r + 1) :
    c.digits ≠ [] := by
  intro hnil
  unfold HCell.res at h
  rw [hnil] at h
  simp at h

theorem isCompleteIn_mem (p : HCell) (S : List HCell) (d : Nat)
    (h : isCompleteIn p S = true) (hd : d ∈ allowedDigits p.base) :
    childCell p d ∈ S := by
  unfold isCompleteIn at h
  rw [List.all_eq_true] at h
  exact of_decide_eq_true (h d hd)

theorem descendantsTo_succ (c : HCell) (n : Nat) :
    descendantsTo c (n + 1) =
      (childrenOf c).flatMap (fun ch => descendantsTo ch n) := rfl

theorem mem_uncompactList (S : List HCell) (R : Nat) (x : HCell) :
    x ∈ uncompactList S R ↔
      ∃ c ∈ S, x ∈ descendantsTo c (R - c.res) := by
  simp [uncompactList, List.mem_flatMap]

theorem mem_uncompactList_append (A B : List HCell) (R : Nat) (x : HCell) :
    x ∈ uncompactList (A ++ B) R ↔
      x ∈ uncompactList A R ∨ x ∈ uncompactList B R := by
  simp only [mem_uncompactList, List.mem_append]
  constructor
  · rintro ⟨c, hc | hc, hx⟩
    · exact Or.inl ⟨c, hc, hx⟩
    · exact Or.inr ⟨c, hc, hx⟩
  · rintro (⟨c, hc, hx⟩ | ⟨c, hc, hx⟩)
    · exact ⟨c, Or.inl hc, hx⟩
    · exact ⟨c, Or.inr hc, hx⟩

theorem mem_parentsOf (S : List HCell) (p : HCell) :
    p ∈ ((S.map parentCell).dedup).filter (fun p => isCompleteIn p S) ↔
      (∃ c ∈ S, parentCell c = p) ∧ isCompleteIn p S = true := by
  rw [List.mem_filter, List.mem_dedup, List.mem_map]

theorem parentsOf_uniform_valid (S : List HCell) (r : Nat)
    (hu : ∀ c ∈ S, c.res = r + 1 ∧ c.valid) :
    ∀ p ∈ ((S.map parentCell).dedup).filter (fun p => isCompleteIn p S),
      p.res = r ∧ p.valid := by
  intro p hp
  obtain ⟨⟨c, hc, hpc⟩, -⟩ := (mem_parentsOf S p).mp hp
  obtain ⟨hres, hval⟩ := hu c hc
  subst hpc
  exact ⟨parentCell_res_succ c r hres, parentCell_valid c hval⟩

theorem uncompactList_compactRec (R : Nat) : ∀ (r : Nat) (S : List HCell),
    r ≤ R → (∀ c ∈ S, c.res = r ∧ c.valid) →
    ∀ x, x ∈ uncompactList (compactRec r S) R ↔ x ∈ uncompactList S R := by
  intro r
  induction r with
  | zero =>
    intro S _ _ x
    rfl
  | succ r ih =>
    intro S hrR hu x
    rw [compactRec]
    rw [mem_uncompactList_append]
    have hP := parentsOf_uniform_valid S r hu
    rw [ih _ (by omega) hP x]
    constructor
    · rintro (hkept | hpar)
      · rw [mem_uncompactList] at hkept ⊢
        obtain ⟨c, hc, hx⟩ := hkept
        exact ⟨c, (List.mem_filter.mp hc).1, hx⟩
      · rw [mem_uncompactList] at hpar ⊢
        obtain ⟨p, hp, hx⟩ := hpar
        have hpres : p.res = r := (hP p hp).1
        have hcomp : isCompleteIn p S = true := ((mem_parentsOf S p).mp hp).2
        rw [hpres] at hx
        have hsub : R - r = (R - (r + 1)) + 1 := by omega
        rw [hsub, descendantsTo_succ, List.mem_flatMap] at hx
        obtain ⟨ch, hch, hxch⟩ := hx
        obtain ⟨d, hd, hchd⟩ := (mem_childrenOf p ch).mp hch
        refine ⟨ch, ?_, ?_⟩
        · rw [← hchd]
          exact isCompleteIn_mem p S d hcomp hd
        · have hchres : ch.res = r + 1 := by
            rw [← hchd, childCell_res, hpres]
          rw [hchres]
          exact hxch
    · intro hS
      rw [mem_uncompactList] at hS
      obtain ⟨c, hc, hx⟩ := hS
      obtain ⟨hcres, hcval⟩ := hu c hc
      by_cases hcomp : isCompleteIn (parentCell c) S = true
      · right
        rw [mem_uncompactList]
        refine ⟨parentCell c, ?_, ?_⟩
        · rw [mem_parentsOf]
          exact ⟨⟨c, hc, rfl⟩, hcomp⟩
        · have hpres : (parentCell c).res = r := parentCell_res_succ c r hcres
          rw [hpres]
          have hsub : R - r = (R - (r + 1)) + 1 := by omega
          rw [hsub, descendantsTo_succ, List.mem_flatMap]
          refine ⟨c, self_mem_childrenOf_parent c hcval
            (digits_ne_nil_of_res_succ c r hcres), ?_⟩
          rw [hcres] at hx
          exact hx
      · left
        rw [mem_uncompactList]
        refine ⟨c, ?_, hx⟩
        rw [List.mem_filter]
        refine ⟨hc, ?_⟩
        have hfalse : isCompleteIn (parentCell c) S = false :=
          Bool.eq_false_iff.mpr hcomp
        rw [hfalse]
        rfl

theorem compactRec_res_valid : ∀ (r : Nat) (S : List HCell),
    (∀ c ∈ S, c.res = r ∧ c.valid) →
    ∀ c ∈ compactRec r S, c.res ≤ r ∧ c.valid := by
  intro r
  induction r with
  | zero =>
    intro S hu c hc
    obtain ⟨h1, h2⟩ := hu c hc
    exact ⟨le_of_eq h1, h2⟩
  | succ r ih =>
    intro S hu c hc
    rw [compactRec, List.mem_append] at hc
    rcases hc with hc | hc
    · obtain ⟨h1, h2⟩ := hu c (List.mem_filter.mp hc).1
      exact ⟨le_of_eq h1, h2⟩
    · have hP := parentsOf_uniform_valid S r hu
      obtain ⟨h1, h2⟩ := ih _ hP c hc
      exact ⟨le_trans h1 (Nat.le_succ r), h2⟩

theorem eqAsSets_of_iff (a b : List HCell) (h : ∀ x, x ∈ a ↔ x ∈ b) :
    eqAsSets a b = true := by
  unfold eqAsSets
  rw [Bool.and_eq_true, List.all_eq_true, List.all_eq_true]
  constructor
  · intro x hx
    exact decide_eq_true ((h x).mp hx)
  · intro x hx
    exact decide_eq_true ((h x).mpr hx)

/-! ### C1: uncompact ∘ compact = uncompact -/

/-- C1: for every duplicate-free set `S` of valid cells at a uniform
resolution `r` and every target resolution `r ≤ R ≤ 15`, both
`uncompact (compact S) R` and `uncompact S R` succeed and produce the
same set of cells (in the spec-modelled compaction engine). -/
theorem compact_uncompact_inverse (S : List HCell) (r R : Nat)
    (hu : ∀ c ∈ S, c.res = r ∧ c.valid) (hnodup : S.Nodup)
    (hrR : r ≤ R) (_hR15 : R ≤ 15) :
    uncompact (compact S) R = some (uncompactList (compact S) R) ∧
    uncompact S R = some (uncompactList S R) ∧
    eqAsSets (uncompactList (compact S) R) (uncompactList S R) = true := by
  have hSguard : S.all (fun c => decide (c.res ≤ R)) = true := by
    rw [List.all_eq_true]
    intro c hc
    exact decide_eq_true (le_trans (le_of_eq (hu c hc).1) hrR)
  cases hS : S with
  | nil =>
    subst hS
    refine ⟨rfl, rfl, ?_⟩
    show eqAsSets (uncompactList (compactRec 0 []) R) (uncompactList [] R) = true
    rfl
  | cons c0 rest =>
    rw [← hS]
    have hr0 : c0.res = r := (hu c0 (by rw [hS]; simp)).1
    have hcompact : compact S = compactRec r S := by
      unfold compact
      rw [hS, ← hr0]
    have hCguard : (compact S).all (fun c => decide (c.res ≤ R)) = true := by
      rw [List.all_eq_true]
      intro c hc
      rw [hcompact] at hc
      have := compactRec_res_valid r S hu c hc
      exact decide_eq_true (le_trans this.1 hrR)
    refine ⟨?_, ?_, ?_⟩
    · unfold uncompact
      rw [if_pos hCguard]
    · unfold uncompact
      rw [if_pos hSguard]
    · refine eqAsSets_of_iff _ _ ?_
      intro x
      rw [hcompact]
      exact uncompactList_compactRec R r S hrR hu x

/-- Witness for C1: the seven children of the hexagonal base cell 0 at
resolution 1, uncompacted back to resolution 1. -/
theorem compact_uncompact_inverse_witness :
    (∀ c ∈ [(⟨0, [0]⟩ : HCell), ⟨0, [1]⟩, ⟨0, [2]⟩, ⟨0, [3]⟩,
        ⟨0, [4]⟩, ⟨0, [5]⟩, ⟨0, [6]⟩], c.res = 1 ∧ c.valid) ∧
    ([(⟨0, [0]⟩ : HCell), ⟨0, [1]⟩, ⟨0, [2]⟩, ⟨0, [3]⟩,
        ⟨0, [4]⟩, ⟨0, [5]⟩, ⟨0, [6]⟩] : List HCell).Nodup ∧
    (uncompact (compact [(⟨0, [0]⟩ : HCell), ⟨0, [1]⟩, ⟨0, [2]⟩, ⟨0, [3]⟩,
        ⟨0, [4]⟩, ⟨0, [5]⟩, ⟨0, [6]⟩]) 1 =
      some (uncompactList (compact [(⟨0, [0]⟩ : HCell), ⟨0, [1]⟩, ⟨0, [2]⟩,
        ⟨0, [3]⟩, ⟨0, [4]⟩, ⟨0, [5]⟩, ⟨0, [6]⟩]) 1) ∧
     uncompact [(⟨0, [0]⟩ : HCell), ⟨0, [1]⟩, ⟨0, [2]⟩, ⟨0, [3]⟩,
        ⟨0, [4]⟩, ⟨0, [5]⟩, ⟨0, [6]⟩] 1 =
      some (uncompactList [(⟨0, [0]⟩ : HCell), ⟨0, [1]⟩, ⟨0, [2]⟩, ⟨0, [3]⟩,
        ⟨0, [4]⟩, ⟨0, [5]⟩, ⟨0, [6]⟩] 1) ∧
     eqAsSets
       (uncompactList (compact [(⟨0, [0]⟩ : HCell), ⟨0, [1]⟩, ⟨0, [2]⟩,
         ⟨0, [3]⟩, ⟨0, [4]⟩, ⟨0, [5]⟩, ⟨0, [6]⟩]) 1)
       (uncompactList [(⟨0, [0]⟩ : HCell), ⟨0, [1]⟩, ⟨0, [2]⟩, ⟨0, [3]⟩,
         ⟨0, [4]⟩, ⟨0, [5]⟩, ⟨0, [6]⟩] 1) = true) :=
  ⟨by decide, by decide,
    compact_uncompact_inverse
      [⟨0, [0]⟩, ⟨0, [1]⟩, ⟨0, [2]⟩, ⟨0, [3]⟩, ⟨0, [4]⟩, ⟨0, [5]⟩, ⟨0, [6]⟩]
      1 1 (by decide) (by decide) (by decide) (by decide)⟩

end H3
